import Mathlib

/-!
Verification development for the `aicommit` tool (`aicommit/commit.py` and the
release utilities in `build/lib/aicommit/commit.py`).

Text is modelled as `Str := List Char` (ASCII-faithful: the Python code only
manipulates command output and model output through byte-oriented regexes and
`str` methods; the regex classes `\w` and `\s` are modelled by their ASCII
parts, and `str.lower`/`str.upper` by the ASCII case maps).

Every definition is translated from the Python source; doc comments name the
function of the source it embeds.
-/

/-- Program text: a Python `str`, modelled as a list of characters. -/
abbrev Str := List Char

/-- Coerce a Lean string literal to `Str`. -/
def chars (s : String) : Str := s.data

/-- The apostrophe character (written via its code point). -/
def apos : Char := Char.ofNat 39

/-- Equality of `Except` values is decidable componentwise. -/
instance {α β : Type} [DecidableEq α] [DecidableEq β] : DecidableEq (Except α β) :=
  fun x y =>
    match x, y with
    | .error a, .error b =>
      if h : a = b then .isTrue (by rw [h])
      else .isFalse (fun hc => h (Except.error.inj hc))
    | .error _, .ok _ => .isFalse (fun hc => Except.noConfusion hc)
    | .ok _, .error _ => .isFalse (fun hc => Except.noConfusion hc)
    | .ok a, .ok b =>
      if h : a = b then .isTrue (by rw [h])
      else .isFalse (fun hc => h (Except.ok.inj hc))

/-- Python `\s` (ASCII part): space, tab, newline, carriage return,
vertical tab, form feed. -/
def isPySpace (c : Char) : Bool :=
  c = ' ' || c = '\t' || c = '\n' || c = '\r' || c = Char.ofNat 11 || c = Char.ofNat 12

/-- Python `str.strip(set)`: drop a maximal run of characters satisfying `p`
from both ends. -/
def pyStripWith (p : Char → Bool) (s : Str) : Str :=
  ((s.dropWhile p).reverse.dropWhile p).reverse

/-- Python `str.strip()` (whitespace). -/
def pyStrip (s : Str) : Str := pyStripWith isPySpace s

/-- Python `str.split(c)` for a one-character separator: always returns at
least one (possibly empty) piece. -/
def splitOnChar (c : Char) : Str → List Str
  | [] => [[]]
  | x :: xs =>
    let r := splitOnChar c xs
    if x = c then [] :: r else (x :: r.headD []) :: r.tail

/-- The line boundaries of Python `str.splitlines()`: `\n`, `\r`, `\v`
(0x0B), `\f` (0x0C), the separators 0x1C-0x1E, NEL (0x85) and the Unicode
line/paragraph separators U+2028/U+2029 (`"\r\n"` is handled as a pair by
`splitlinesAux`). -/
def isLineBoundary (c : Char) : Bool :=
  c = '\n' || c = '\r' || c = Char.ofNat 11 || c = Char.ofNat 12 ||
  c = Char.ofNat 28 || c = Char.ofNat 29 || c = Char.ofNat 30 ||
  c = Char.ofNat 133 || c = Char.ofNat 8232 || c = Char.ofNat 8233

/-- Helper of `pySplitlines`: `cur` is the reversed current line; split on
`"\r\n"` or on any single line-boundary character, with no empty piece after
a final terminator. -/
def splitlinesAux (cur : Str) : Str → List Str
  | [] => [cur.reverse]
  | '\r' :: '\n' :: rest => cur.reverse :: (if rest = [] then [] else splitlinesAux [] rest)
  | c :: rest =>
    if isLineBoundary c then
      cur.reverse :: (if rest = [] then [] else splitlinesAux [] rest)
    else splitlinesAux (c :: cur) rest

/-- Python `str.splitlines()`: split on every line boundary (`"\r\n"`
counting as one); a final terminator produces no empty trailing piece, and
the empty string has no lines. -/
def pySplitlines (s : Str) : List Str :=
  if s = [] then [] else splitlinesAux [] s

/-- Python `str.split(sep, 1)` for the case where the separator occurs:
split at the first occurrence of `sep`. `none` when `sep` does not occur. -/
def splitFirstOn (sep : Str) : Str → Option (Str × Str)
  | [] => none
  | x :: xs =>
    if sep.isPrefixOf (x :: xs) then some ([], (x :: xs).drop sep.length)
    else
      match splitFirstOn sep xs with
      | some (a, b) => some (x :: a, b)
      | none => none

/-- Python regex `\w` (ASCII part): letters, digits, underscore. -/
def isWordChar (c : Char) : Bool := c.isAlphanum || c = '_'

/-- `":" in fallback.split(" ")[0]` from `_sanitize_commit_message`:
the first space-delimited token contains a colon. -/
def colonBeforeSpace (s : Str) : Bool :=
  (s.takeWhile (fun c => decide (c ≠ ' '))).contains ':'

/-- The Conventional Commit type keywords, in the alternation order of the
source regexes. No keyword is a prefix of another, so the alternation is
deterministic. -/
def ccHeaderTypes : List Str :=
  [chars "feat", chars "fix", chars "docs", chars "style", chars "refactor",
   chars "perf", chars "test", chars "build", chars "ci", chars "chore",
   chars "revert"]

/-- Regex tail `.+$` (`.` excludes `'\n'`; `$` matches the end of the string
or just before a final newline): at least one non-newline character and then
the end. -/
def tailOk (t : Str) : Bool :=
  let u := if t.getLast? = some '\n' then t.dropLast else t
  decide (u ≠ []) && decide ('\n' ∉ u)

/-- Regex tail `\s+.+$`: a nonempty whitespace run, then `.+$`. The whitespace
run may be any nonempty prefix of the maximal run; the rest must satisfy
`tailOk`. -/
def wsRest (r : Str) : Bool :=
  (List.range (r.takeWhile isPySpace).length).any (fun i => tailOk (r.drop (i + 1)))

/-- Regex fragment `!?:\s+.+$` of `header_regex` (`_sanitize_commit_message`):
an optional breaking marker, the colon, then `\s+.+$`. -/
def afterBang : Str → Bool
  | '!' :: ':' :: r => wsRest r
  | ':' :: r => wsRest r
  | _ => false

/-- Scope class `[\w\-\/\.\s]` of `header_regex`. -/
def scopeChar (c : Char) : Bool :=
  isWordChar c || c = '-' || c = '/' || c = '.' || isPySpace c

/-- Regex fragment `(\([\w\-\/\.\s]+\))?!?:\s+.+$` of `header_regex`, applied
after the type keyword. The scope class excludes `')'`, so the greedy run is
the only candidate and matching is deterministic. -/
def headerAfterType (rest : Str) : Bool :=
  match rest with
  | '(' :: r =>
    let inner := r.takeWhile scopeChar
    (match r.drop inner.length with
     | ')' :: r2 => decide (inner ≠ []) && afterBang r2
     | _ => false)
  | _ => afterBang rest

/-- `header_regex.match` from `_sanitize_commit_message`:
`^(feat|fix|...|revert)(\([\w\-\/\.\s]+\))?!?:\s+.+$`, case-insensitive
(matching is performed on the lowercased line). After the type keyword the
next character must be `'('`, `'!'` or `':'`, none of which starts a type
keyword, so picking the unique keyword that is a prefix is faithful. -/
def headerMatch (s : Str) : Bool :=
  let low := s.map Char.toLower
  match ccHeaderTypes.find? (fun t => t.isPrefixOf low) with
  | some t => headerAfterType (low.drop t.length)
  | none => false

/-- The sub `re.sub(r"^[-*]\s+", "", line)` of `_sanitize_commit_message`:
drop one leading bullet marker followed by a nonempty whitespace run. -/
def stripBullet (l : Str) : Str :=
  match l with
  | c :: rest =>
    if (c = '-' || c = '*') && (match rest with | d :: _ => isPySpace d | [] => false)
    then rest.dropWhile isPySpace else l
  | [] => []

/-- Alternative `^```[\w-]*\n` of the code-fence sub in
`_sanitize_commit_message` (anchored at position 0, since the sub has no
MULTILINE flag). -/
def removeLeadingFence (t : Str) : Str :=
  if (chars "```").isPrefixOf t then
    let rest := t.drop 3
    let run := rest.takeWhile (fun c => isWordChar c || c = '-')
    (match rest.drop run.length with
     | '\n' :: r => r
     | _ => t)
  else t

/-- Alternative `` \n```$ `` of the code-fence sub: the string ends with
`"\n```"`, or with `"\n```"` followed by one final newline (the `$` matches
just before a final newline, which the sub then leaves in place). -/
def removeTrailingFence (t : Str) : Str :=
  if t.drop (t.length - 4) = chars "\n```" && decide (4 ≤ t.length) then
    t.take (t.length - 4)
  else if t.drop (t.length - 5) = '\n' :: chars "```\n" && decide (5 ≤ t.length) then
    t.take (t.length - 5) ++ ['\n']
  else t

/-- `re.sub(r"^\s*here('s| is)\b.*?:\s*\n?", "", text, flags=IGNORECASE)` from
`_sanitize_commit_message`. Anchored at the start; the lazy `.*?` scans
non-newline characters up to the first colon; the trailing `\s*` is greedy and
subsumes the optional newline. When the pattern does not match, the sub is the
identity. -/
def stripHeres (t : Str) : Str :=
  let ws := t.takeWhile isPySpace
  let r := t.drop ws.length
  let low := r.map Char.toLower
  let afterPhrase : Option Str :=
    if (chars "here" ++ [apos, 's']).isPrefixOf low
        && (match low.drop 6 with | c :: _ => !isWordChar c | [] => true) then
      some (r.drop 6)
    else if (chars "here is").isPrefixOf low
        && (match low.drop 7 with | c :: _ => !isWordChar c | [] => true) then
      some (r.drop 7)
    else none
  match afterPhrase with
  | none => t
  | some rest =>
    let upto := rest.takeWhile (fun c => decide (c ≠ ':') && decide (c ≠ '\n'))
    (match rest.drop upto.length with
     | ':' :: r2 => r2.dropWhile isPySpace
     | _ => t)

/-- `re.sub(r"^\s*(commit message|conventional commit)\s*:?-?\s*\n?", "",
text, flags=IGNORECASE)` from `_sanitize_commit_message`. Anchored at the
start; all tail pieces are optional and consumed greedily left to right. -/
def stripCommitPhrase (t : Str) : Str :=
  let ws := t.takeWhile isPySpace
  let r := t.drop ws.length
  let low := r.map Char.toLower
  let n? : Option Nat :=
    if (chars "commit message").isPrefixOf low then some 14
    else if (chars "conventional commit").isPrefixOf low then some 19
    else none
  match n? with
  | none => t
  | some n =>
    let r1 := (r.drop n).dropWhile isPySpace
    let r2 := match r1 with | ':' :: a => a | _ => r1
    let r3 := match r2 with | '-' :: a => a | _ => r2
    r3.dropWhile isPySpace

/-- The `text` local of `_sanitize_commit_message` after all the cleanup subs
(`aicommit/commit.py` lines 114-121): strip, code-fence sub, `\r` removal,
leading-phrase subs, quote stripping. -/
def sanitizedText (raw : Str) : Str :=
  pyStripWith (fun c => c = apos)
    (pyStripWith (fun c => c = '"')
      (pyStrip
        (stripCommitPhrase
          (stripHeres
            ((removeTrailingFence (removeLeadingFence (pyStrip raw))).filter
              (fun c => decide (c ≠ '\r')))))))

/-- The `lines` local of `_sanitize_commit_message`: split on newlines, strip
each line, keep the nonempty ones. -/
def sanitizedLines (raw : Str) : List Str :=
  ((splitOnChar '\n' (sanitizedText raw)).map pyStrip).filter (fun l => decide (l ≠ []))

/-- `_sanitize_commit_message` (`aicommit/commit.py` lines 105-143). -/
def sanitize_commit_message (raw : Str) : Str :=
  if raw = [] then chars "chore: update"
  else
    match sanitizedLines raw with
    | [] => chars "chore: update"
    | l0 :: rest =>
      match (l0 :: rest).find? (fun l => headerMatch (stripBullet l)) with
      | some l => stripBullet l
      | none =>
        let fb := pyStrip ((splitOnChar '\n' (stripBullet l0)).headD [])
        if headerMatch fb then fb
        else if colonBeforeSpace fb then fb
        else chars "chore: " ++ fb

/-- Python `pat in s` (substring test): some suffix of `s` starts with `pat`. -/
def containsSub (pat : Str) (s : Str) : Bool :=
  (List.range (s.length + 1)).any (fun i => pat.isPrefixOf (s.drop i))

/-- `[x]` for `some x`, `[]` for `none`. -/
def optList (o : Option Str) : List Str :=
  match o with
  | some x => [x]
  | none => []

/-- One commit since the last tag, as produced by `_git_commits_since`:
`{"sha": ..., "body": ...}`. -/
structure CommitRec where
  sha : Str
  body : Str
deriving DecidableEq, Repr

/-- One classified commit, as stored in the buckets of `_analyze_commits`:
`{"sha": ..., "subject": ...}`. -/
structure Item where
  sha : Str
  subject : Str
deriving DecidableEq, Repr

/-- The `res` dictionary of `_analyze_commits`. -/
structure Analysis where
  breaking : List Item
  feat : List Item
  fix : List Item
  other : List Item
deriving DecidableEq, Repr

/-- Scope and tail of `_CC_RE`
(`^(type)(\([^)]+\))?(!)?:\s+(subject)$`), applied after the type keyword.
Returns the breaking flag on a match. The scope class `[^)]+` excludes `')'`,
so the greedy run is the only candidate. -/
def ccAfterType (rest : Str) : Option Bool :=
  match rest with
  | '(' :: r =>
    let inner := r.takeWhile (fun c => decide (c ≠ ')'))
    (match r.drop inner.length with
     | ')' :: r2 => if inner = [] then none else ccBang r2
     | _ => none)
  | _ => ccBang rest
where
  /-- `(!)?:\s+(subject)$`. -/
  ccBang : Str → Option Bool
  | '!' :: ':' :: r => if wsRest r then some true else none
  | ':' :: r => if wsRest r then some false else none
  | _ => none

/-- `_CC_RE.match(subject)` from `build/lib/aicommit/commit.py` line 195,
returning `(type lowercased, breaking-marker present)` on a match. -/
def ccMatch (s : Str) : Option (Str × Bool) :=
  let low := s.map Char.toLower
  match ccHeaderTypes.find? (fun t => t.isPrefixOf low) with
  | none => none
  | some t => (ccAfterType (low.drop t.length)).map (fun bang => (t, bang))

/-- The `lines` local of `_analyze_commits`: the non-blank lines of the
commit body. -/
def commitLines (c : CommitRec) : List Str :=
  (pySplitlines c.body).filter (fun l => decide (pyStrip l ≠ []))

/-- The `subject` local of `_analyze_commits`: first non-blank body line,
empty when there is none. -/
def commitSubject (c : CommitRec) : Str := (commitLines c).headD []

/-- The `is_breaking` flag of `_analyze_commits`: the subject matches
`_CC_RE` and either carries the `!` marker or some later non-blank body line
contains `"BREAKING CHANGE"` after uppercasing. -/
def commitBreaking (c : CommitRec) : Bool :=
  match ccMatch (commitSubject c) with
  | some (_, bang) =>
    bang || ((commitLines c).drop 1).any
      (fun l => containsSub (chars "BREAKING CHANGE") (l.map Char.toUpper))
  | none => false

/-- The subject recorded for a commit whose subject does not match `_CC_RE`:
`subject or body.splitlines()[0] if body else c["sha"]`, which by Python
precedence is `(subject or body.splitlines()[0]) if body else c["sha"]`. -/
def unmatchedSubject (c : CommitRec) : Str :=
  if c.body = [] then c.sha
  else if commitSubject c = [] then (pySplitlines c.body).headD []
  else commitSubject c

/-- `_analyze_commits` (`build/lib/aicommit/commit.py` lines 250-280).
Buckets are built in commit order (the Python loop appends; here the head
commit's item is prepended to the classification of the tail). -/
def analyze_commits : List CommitRec → Analysis
  | [] => ⟨[], [], [], []⟩
  | c :: cs =>
    let rest := analyze_commits cs
    match ccMatch (commitSubject c) with
    | some (ctype, _) =>
      let item : Item := ⟨c.sha, commitSubject c⟩
      let rest1 := if commitBreaking c then { rest with breaking := item :: rest.breaking } else rest
      if ctype = chars "feat" then { rest1 with feat := item :: rest1.feat }
      else if ctype = chars "fix" then { rest1 with fix := item :: rest1.fix }
      else { rest1 with other := item :: rest1.other }
    | none => { rest with other := ⟨c.sha, unmatchedSubject c⟩ :: rest.other }

/-- `_decide_bump` (`build/lib/aicommit/commit.py` lines 283-288). -/
def decide_bump (analysis : Analysis) : Str :=
  if analysis.breaking ≠ [] then chars "major"
  else if analysis.feat ≠ [] then chars "minor"
  else chars "patch"

/-- Python `int(s)` restricted to the shapes used for version components:
optional sign, then a nonempty ASCII digit run (whitespace-stripped first).
`none` models `ValueError`. -/
def pyInt (s : Str) : Option Int :=
  let t := pyStrip s
  let (neg, ds) : Bool × Str :=
    match t with
    | '-' :: r => (true, r)
    | '+' :: r => (false, r)
    | r => (false, r)
  if ds = [] || !ds.all Char.isDigit then none
  else
    let n := ds.foldl (fun acc c => acc * 10 + (c.toNat - 48)) (0 : Nat)
    some (if neg then -(n : Int) else (n : Int))

/-- `str(n)` for an integer, as a character list. -/
def intToStr (i : Int) : Str :=
  if i < 0 then '-' :: Nat.toDigits 10 i.natAbs else Nat.toDigits 10 i.toNat

/-- `_semver_bump` (`build/lib/aicommit/commit.py` lines 216-223). `none`
models the `ValueError` raised when the version string does not split into
three integer components. -/
def semver_bump (version : Str) (bump : Str) : Option Str :=
  match (splitOnChar '.' version).map pyInt with
  | [some major, some minor, some patch] =>
    if bump = chars "major" then
      some (intToStr (major + (1 : Int)) ++ chars ".0.0")
    else if bump = chars "minor" then
      some (intToStr major ++ chars "." ++ intToStr (minor + (1 : Int)) ++ chars ".0")
    else
      some (intToStr major ++ chars "." ++ intToStr minor ++ chars "." ++ intToStr (patch + (1 : Int)))
  | _ => none

/-- One parsed line of `git status --porcelain` output, as produced by
`_git_status_porcelain`: `(X, Y, path, orig_path)`. -/
structure ChangeEntry where
  X : Char
  Y : Char
  path : Str
  orig : Option Str
deriving DecidableEq, Repr

/-- The parse of one non-blank status line in `_git_status_porcelain`
(`aicommit/commit.py` lines 60-67). `none` models the `IndexError` raised by
`prefix[1]` on a line of length 1 (`line[:2]` and `line[3:]` never raise). -/
def parseStatusLine (line : Str) : Option ChangeEntry :=
  match line with
  | x :: y :: _ =>
    let rest := if 3 < line.length then line.drop 3 else []
    (match splitFirstOn (chars " -> ") rest with
     | some (o, p) =>
       some ⟨x, y, pyStrip p, if o = [] then none else some (pyStrip o)⟩
     | none => some ⟨x, y, pyStrip rest, none⟩)
  | _ => none

/-- Sequential traversal collecting the parses, aborting on the first
failure (as a raised exception aborts the Python loop). -/
def optionTraverse {α β : Type} (f : α → Option β) : List α → Option (List β)
  | [] => some []
  | a :: l =>
    match f a, optionTraverse f l with
    | some b, some bs => some (b :: bs)
    | _, _ => none

/-- The parsing loop of `_git_status_porcelain` (`aicommit/commit.py` lines
55-68) on the raw stdout of the status command: one entry per non-blank line;
`none` models an uncaught `IndexError` escaping the loop. -/
def status_parse (out : Str) : Option (List ChangeEntry) :=
  optionTraverse parseStatusLine
    ((pySplitlines out).filter (fun l => decide (pyStrip l ≠ [])))

/-- The eligibility test of `get_diffed_files` (`aicommit/commit.py` line 76):
either status code non-blank, or both codes `'?'`. -/
def changedEntry (e : ChangeEntry) : Bool :=
  decide (e.X ≠ ' ') || decide (e.Y ≠ ' ') || (decide (e.X = '?') && decide (e.Y = '?'))

/-- The deduplication loop of `get_diffed_files` (`aicommit/commit.py` lines
79-84), with its `seen` set. -/
def dedupLoop : List Str → List Str → List Str
  | [], _ => []
  | f :: fs, seen => if f ∈ seen then dedupLoop fs seen else f :: dedupLoop fs (f :: seen)

/-- `get_diffed_files` (`aicommit/commit.py` lines 71-85) applied to parsed
status entries: changed paths in order, deduplicated. -/
def get_diffed_files_of (entries : List ChangeEntry) : List Str :=
  dedupLoop ((entries.filter changedEntry).map (fun e => e.path)) []

/-- First-seen-order deduplication, as the specification states it: keep each
path's first occurrence, erase the later ones. (Spec-side counterpart of the
`seen`-set loop, for the refinement part of the status-parser claim.) -/
def dedupFirstSeen : List Str → List Str
  | [] => []
  | x :: xs => x :: dedupFirstSeen (xs.filter (fun y => decide (y ≠ x)))
termination_by l => l.length
decreasing_by
  simp only [List.length_cons]
  exact Nat.lt_succ_of_le (List.length_filter_le _ _)

/-- The repository state touched by `run_release`, with the outputs of the
read-only git queries modelled as state components:
`status_lines` is the split stdout of `git status --porcelain`;
`init_lines` are the lines of `aicommit/__init__.py` (the version marker
file), each line still carrying its terminator as in Python file iteration;
`changelog` is the content of `CHANGELOG.md` (`none` when the file does not
exist); `log` is the parsed output of `_git_commits_since` for the last tag;
`today` is `date.today().isoformat()`; `staged`, `history` and `tags` model
the version-control index (staged paths), commit history (messages) and tag
list that `_git_commit_and_tag` appends to. -/
structure RepoState where
  status_lines : List Str
  init_lines : List Str
  changelog : Option Str
  log : List CommitRec
  today : Str
  staged : List Str
  history : List Str
  tags : List Str
deriving DecidableEq, Repr

/-- `_read_current_version_from_file` (`build/lib/aicommit/commit.py` lines
198-213), file-parse path: first line whose strip starts with
`"__version__"`, split on `'='`, last piece stripped of whitespace and
quotes; `"0.0.0"` when absent. (The module-import fast path returns the same
`__version__` value that this line declares.) -/
def read_current_version (init_lines : List Str) : Str :=
  match init_lines.find? (fun l => (chars "__version__").isPrefixOf (pyStrip l)) with
  | some l =>
    pyStripWith (fun c => c = apos)
      (pyStripWith (fun c => c = '"')
        (pyStrip ((splitOnChar '=' l).getLastD [])))
  | none => chars "0.0.0"

/-- `_update_version_file` (`build/lib/aicommit/commit.py` lines 291-301):
every line whose strip starts with `"__version__"` is replaced by the new
declaration; other lines are kept. -/
def update_version_file (init_lines : List Str) (new_version : Str) : List Str :=
  init_lines.map (fun l =>
    if (chars "__version__").isPrefixOf (pyStrip l) then
      chars "__version__ = " ++ '"' :: new_version ++ ['"', '\n']
    else l)

/-- The changelog section lines built by `_prepend_changelog`
(`build/lib/aicommit/commit.py` lines 304-326). -/
def changelogHeader (new_version : Str) (analysis : Analysis) (today : Str) : List Str :=
  let sections : List (Str × List Item) :=
    (if analysis.breaking ≠ [] then [(chars "Breaking Changes", analysis.breaking)] else []) ++
    (if analysis.feat ≠ [] then [(chars "Features", analysis.feat)] else []) ++
    (if analysis.fix ≠ [] then [(chars "Bug Fixes", analysis.fix)] else []) ++
    (if analysis.other ≠ [] then [(chars "Other Changes", analysis.other)] else [])
  [chars "## v" ++ new_version ++ chars " - " ++ today ++ ['\n'], ['\n']] ++
  (sections.map (fun sec =>
    (chars "### " ++ sec.1 ++ ['\n']) ::
    sec.2.map (fun it =>
      chars "- " ++ it.subject ++ chars " (" ++ it.sha.take 7 ++ chars ")\n") ++
    [['\n']])).flatten

/-- `_prepend_changelog` (`build/lib/aicommit/commit.py` lines 304-336): the
new content of `CHANGELOG.md` — the new section followed by the previous
content when the file existed. (The source's `existing if
existing.startswith("# ") else existing` writes `existing` in both arms.) -/
def prepend_changelog (new_version : Str) (analysis : Analysis) (today : Str)
    (old : Option Str) : Str :=
  (changelogHeader new_version analysis today).flatten ++
  (match old with
   | some existing =>
     if existing = [] then []
     else if (chars "# ").isPrefixOf existing then existing else existing
   | none => [])

/-- The `SystemExit` message of the dirty-tree guard in `run_release`. -/
def cleanTreeErr : Str :=
  chars "Working tree must be clean (no staged/unstaged changes) before release."

/-- The `ValueError` raised by `_semver_bump` when the current version does
not split into three integers (modelled as an abort message). -/
def valueErr : Str := chars "ValueError"

/-- `_git_commit_and_tag` (`build/lib/aicommit/commit.py` lines 339-344) as a
state transformer: on a dry run, nothing; otherwise stage the two artifacts,
append the release commit to history, and append the tag. -/
def git_commit_and_tag (new_version : Str) (dry_run : Bool) (s : RepoState) : RepoState :=
  if dry_run then s
  else
    { s with
      staged := s.staged ++ [chars "CHANGELOG.md", chars "aicommit/__init__.py"],
      history := s.history ++ [chars "chore(release): v" ++ new_version],
      tags := s.tags ++ [chars "v" ++ new_version] }

/-- `bump_override or _decide_bump(analysis)` from `run_release` (Python
`or`: an empty override string also falls back to the decided bump). -/
def releaseBump (analysis : Analysis) (bump_override : Option Str) : Str :=
  match bump_override with
  | some b => if b = [] then decide_bump analysis else b
  | none => decide_bump analysis

/-- The `dirty` list of `run_release` (line 350): status lines that are
nonempty and not untracked entries. -/
def releaseDirty (s : RepoState) : List Str :=
  s.status_lines.filter (fun ln => decide (ln ≠ []) && !(chars "?? ").isPrefixOf ln)

/-- `run_release` (`build/lib/aicommit/commit.py` lines 347-364): result
(`Except` models `SystemExit`/`ValueError` escaping the function) together
with the final repository state. The dirty-tree guard fires before any
mutation; on success the version file and changelog are rewritten and, unless
`dry_run`, `_git_commit_and_tag` records the release. -/
def run_release (s : RepoState) (dry_run : Bool) (bump_override : Option Str) :
    Except Str Str × RepoState :=
  if releaseDirty s ≠ [] then (Except.error cleanTreeErr, s)
  else
    match semver_bump (read_current_version s.init_lines)
        (releaseBump (analyze_commits s.log) bump_override) with
    | none => (Except.error valueErr, s)
    | some new_version =>
      (Except.ok new_version,
        git_commit_and_tag new_version dry_run
          { s with
            init_lines := update_version_file s.init_lines new_version,
            changelog := some (prepend_changelog new_version
              (analyze_commits s.log) s.today s.changelog) })

/-- The mutating external commands issued by `commit_changes`, plus the
language-model request, in issue order. (Read-only diff/status queries are
answered by the environment oracles and are not part of the trace.) -/
inductive Ev where
  | addAll (paths : List Str)
  | rmq (path : Str)
  | addF (path : Str)
  | api (diff : Str)
  | commit (msg : Str) (paths : List Str)
deriving DecidableEq, Repr

/-- The environment of one `commit_changes` run: the parsed status entries
(`_git_status_porcelain()` at entry) and oracles answering the external
calls — success and stdout of `git diff --cached -- ps` and
`git diff -- ps`, the language-model response for a diff (`none` = the call
raised, `some none` = null `content`), and success of each mutating
command. -/
structure Env where
  entries : List ChangeEntry
  diffCachedOk : List Str → Bool
  diffCached : List Str → Str
  diffOk : List Str → Bool
  diffWT : List Str → Str
  api : Str → Option (Option Str)
  runOk : Ev → Bool

/-- Python dict lookup for a dict built by insertions in list order:
the last binding of a key wins. -/
def dlookup {α : Type} (m : List (Str × α)) (k : Str) : Option α :=
  (m.reverse.find? (fun kv => decide (kv.1 = k))).map (fun kv => kv.2)

/-- `details_map.get(file, (' ', ' ', None))` from `commit_changes`
(`aicommit/commit.py` lines 185-196). -/
def detailsFor (env : Env) (f : Str) : Char × Char × Option Str :=
  (dlookup (env.entries.map (fun e => (e.path, (e.X, e.Y, e.orig)))) f).getD
    (' ', ' ', none)

/-- `get_file_diff` (`aicommit/commit.py` lines 87-103): prefer the staged
diff when the status map marks the path staged and the staged diff command
succeeds with nonempty output; otherwise the worktree diff, empty on
failure. -/
def get_file_diff (env : Env) (fp : Str) (smap : List (Str × Char × Char)) : Str :=
  let staged :=
    decide (smap ≠ []) &&
      (match dlookup smap fp with
       | some xy => decide (xy.1 ≠ ' ')
       | none => false)
  if staged && env.diffCachedOk [fp] && decide (env.diffCached [fp] ≠ []) then
    env.diffCached [fp]
  else if env.diffOk [fp] then env.diffWT [fp]
  else []

/-- The rename-pair diff of `commit_changes` (`aicommit/commit.py` lines
223-230): staged diff of both paths, falling back to the worktree diff when
the staged diff is blank after trimming. -/
def renameDiff (env : Env) (o f : Str) : Str :=
  let d := if env.diffCachedOk [o, f] then env.diffCached [o, f] else []
  if pyStrip d = [] then (if env.diffOk [o, f] then env.diffWT [o, f] else [])
  else d

/-- The `diff` local of one `commit_changes` iteration (`aicommit/commit.py`
lines 222-232): the rename-pair diff when `orig` is set, otherwise
`get_file_diff` on the (possibly updated) status map. -/
def computeDiff (env : Env) (smap : List (Str × Char × Char))
    (orig : Option Str) (f : Str) : Str :=
  match orig with
  | some o => renameDiff env o f
  | none => get_file_diff env f smap

/-- `generate_commit_message` (`aicommit/commit.py` lines 146-176): any
exception from the API call is caught and the static fallback returned;
otherwise the sanitizer is applied to `response.choices[0].message.content
or ""`. -/
def generate_commit_message (api : Str → Option (Option Str)) (diff : Str) : Str :=
  match api diff with
  | none => chars "chore: update"
  | some content => sanitize_commit_message (content.getD [])

/-- The tail of one `commit_changes` iteration after staging
(`aicommit/commit.py` lines 222-247): compute the diff, skip when it is
blank, otherwise request a message and issue the pathspec-restricted commit.
Returns the issued events and the additions to `processed` (the file is
marked processed after a successful rename commit). -/
def commitPhase (env : Env) (smap : List (Str × Char × Char))
    (orig : Option Str) (f : Str) : List Ev × List Str :=
  let diff := computeDiff env smap orig f
  if pyStrip diff = [] then ([], [])
  else
    let msg := generate_commit_message env.api diff
    let ps := match orig with | some o => [o, f] | none => [f]
    ([Ev.api diff, Ev.commit msg ps],
     if orig.isSome && env.runOk (Ev.commit msg ps) then [f] else [])

/-- One iteration of the `commit_changes` loop (`aicommit/commit.py` lines
193-247) on `(processed, status_map)`: skip processed files; stage when the
staged code is blank (rename pair, worktree deletion, or force add — on
staging failure log and continue); then the commit phase. Returns the issued
events and the updated loop state. -/
def processOne (env : Env) (processed : List Str)
    (smap : List (Str × Char × Char)) (f : Str) :
    List Ev × List Str × List (Str × Char × Char) :=
  if f ∈ processed then ([], processed, smap)
  else
    let d := detailsFor env f
    let orig := d.2.2
    if d.1 = ' ' then
      match orig with
      | some o =>
        let ev := Ev.addAll [o, f]
        if env.runOk ev then
          let processed1 := processed ++ [o, f]
          let smap1 := smap ++ [(f, ('R', ' '))]
          let r := commitPhase env smap1 orig f
          (ev :: r.1, processed1 ++ r.2, smap1)
        else ([ev], processed, smap)
      | none =>
        if d.2.1 = 'D' then
          let ev := Ev.rmq f
          if env.runOk ev then
            let smap1 := smap ++ [(f, ('M', ' '))]
            let r := commitPhase env smap1 orig f
            (ev :: r.1, processed ++ r.2, smap1)
          else ([ev], processed, smap)
        else
          let ev := Ev.addF f
          if env.runOk ev then
            let smap1 := smap ++ [(f, ('M', ' '))]
            let r := commitPhase env smap1 orig f
            (ev :: r.1, processed ++ r.2, smap1)
          else ([ev], processed, smap)
    else
      let r := commitPhase env smap orig f
      (r.1, processed ++ r.2, smap)

/-- The `commit_changes` loop over the given files, threading
`(processed, status_map)`. -/
def ccLoop (env : Env) : List Str → List Str → List (Str × Char × Char) → List Ev
  | [], _, _ => []
  | f :: fs, processed, smap =>
    let r := processOne env processed smap f
    r.1 ++ ccLoop env fs r.2.1 r.2.2

/-- `commit_changes` (`aicommit/commit.py` lines 178-249) as the trace of
issued commands: the loop starts from an empty `processed` set and the
status map built from the entries. -/
def commit_changes (env : Env) (files : List Str) : List Ev :=
  ccLoop env files [] (env.entries.map (fun e => (e.path, (e.X, e.Y))))

/-- The paths a command's pathspec mentions. -/
def Ev.paths : Ev → List Str
  | .addAll ps => ps
  | .rmq p => [p]
  | .addF p => [p]
  | .api _ => []
  | .commit _ ps => ps

/-- Effect of one command on the set of staged paths: `git add`/`git rm`
stage exactly their pathspec; `git commit -- ps` commits and unstages exactly
the paths of its pathspec; the API call touches nothing. -/
def applyEv (staged : List Str) : Ev → List Str
  | .addAll ps => staged ++ ps
  | .rmq p => staged ++ [p]
  | .addF p => staged ++ [p]
  | .api _ => staged
  | .commit _ ps => staged.filter (fun q => decide (q ∉ ps))

/-- Effect of a command trace on the staged set. -/
def applyTrace (staged : List Str) (evs : List Ev) : List Str :=
  evs.foldl applyEv staged

/-- The rename partner recorded in the status entries for a path, if any. -/
def origList (env : Env) (f : Str) : List Str :=
  optList (detailsFor env f).2.2

/-- All paths the orchestrator may touch for a list of files: the files
themselves and their recorded rename partners. -/
def touched (env : Env) (files : List Str) : List Str :=
  (files.map (fun f => f :: origList env f)).flatten

/-- The entry `parseStatusLine` produces for a line of length at least 2
(total description; the first component is defaulted on shorter lines, on
which `parseStatusLine` is `none` instead). -/
def entryOfLine (l : Str) : ChangeEntry :=
  match l with
  | x :: y :: _ =>
    let rest := if 3 < l.length then l.drop 3 else []
    (match splitFirstOn (chars " -> ") rest with
     | some (o, p) => ⟨x, y, pyStrip p, if o = [] then none else some (pyStrip o)⟩
     | none => ⟨x, y, pyStrip rest, none⟩)
  | _ => ⟨' ', ' ', [], none⟩

/-- Fixture: a repository state with a clean tree, version `1.2.3` and one
`feat` commit since the last tag. -/
def sampleRelease : RepoState where
  status_lines := []
  init_lines := [chars "__version__ = \"1.2.3\"\n"]
  changelog := some (chars "# Changelog\n")
  log := [⟨chars "abc1234def", chars "feat: add thing"⟩]
  today := chars "2026-10-12"
  staged := []
  history := [chars "feat: add thing"]
  tags := [chars "v1.2.3"]

/-- Fixture: the same repository state with one staged modification in the
status output. -/
def sampleDirty : RepoState :=
  { sampleRelease with status_lines := [chars "M  a"] }

/-- Fixture: an orchestrator environment whose diff oracles all answer with
blank output. -/
def envBlank : Env where
  entries := []
  diffCachedOk := fun _ => true
  diffCached := fun _ => []
  diffOk := fun _ => true
  diffWT := fun _ => []
  api := fun _ => none
  runOk := fun _ => true

/-- Fixture: an orchestrator environment with a modified path `a` and an
unrelated staged path `keep`, every command succeeding. -/
def sampleEnv : Env where
  entries := [⟨'M', ' ', chars "a", none⟩, ⟨'A', ' ', chars "keep", none⟩]
  diffCachedOk := fun _ => true
  diffCached := fun _ => chars "dx"
  diffOk := fun _ => true
  diffWT := fun _ => chars "dy"
  api := fun _ => some (some (chars "feat: x"))
  runOk := fun _ => true

/-- C3: release bump classification and arithmetic — `["fix: a"]` gives a
patch bump, `["feat: a"]` a minor bump, `["feat!: a"]` and a commit whose
body contains the breaking-change token a major bump; bumping `1.2.3` by
minor yields `1.3.0` and by major yields `2.0.0` (one component incremented,
lower components zeroed). -/
theorem release_bump_rules :
    decide_bump (analyze_commits [⟨chars "sha1", chars "fix: a"⟩]) = chars "patch" ∧
    decide_bump (analyze_commits [⟨chars "sha1", chars "feat: a"⟩]) = chars "minor" ∧
    decide_bump (analyze_commits [⟨chars "sha1", chars "feat!: a"⟩]) = chars "major" ∧
    decide_bump (analyze_commits
      [⟨chars "sha1", chars "fix: a\n\nBREAKING CHANGE: api"⟩]) = chars "major" ∧
    semver_bump (chars "1.2.3") (chars "minor") = some (chars "1.3.0") ∧
    semver_bump (chars "1.2.3") (chars "major") = some (chars "2.0.0") := by
  decide

/-- C8: for every diff, an API failure is caught and the static fallback
`"chore: update"` returned (the error never propagates — the function is
total); on success the result is the sanitizer applied to the raw model text
(`content or ""`). -/
theorem generator_fallback_on_error (api : Str → Option (Option Str)) (diff : Str) :
    (api diff = none → generate_commit_message api diff = chars "chore: update") ∧
    (∀ content, api diff = some content →
      generate_commit_message api diff = sanitize_commit_message (content.getD [])) := by
  constructor
  · intro h
    simp [generate_commit_message, h]
  · intro content h
    simp [generate_commit_message, h]

/-- Witness for `generator_fallback_on_error` at concrete oracles. -/
theorem generator_fallback_on_error_witness :
    generate_commit_message (fun _ => none) (chars "d") = chars "chore: update" ∧
    generate_commit_message (fun _ => some (some (chars "raw text"))) (chars "d") =
      sanitize_commit_message (chars "raw text") :=
  ⟨(generator_fallback_on_error (fun _ => none) (chars "d")).1 rfl,
   (generator_fallback_on_error (fun _ => some (some (chars "raw text"))) (chars "d")).2
     (some (chars "raw text")) rfl⟩

/-- C1 (amended): a dry run returns the same result as a normal run and
issues no commit, no tag and no staging — but it rewrites the version marker
file and the changelog exactly as a normal run does. -/
theorem release_dry_run_frame (s : RepoState) (ov : Option Str) :
    (run_release s true ov).1 = (run_release s false ov).1 ∧
    (run_release s true ov).2.history = s.history ∧
    (run_release s true ov).2.tags = s.tags ∧
    (run_release s true ov).2.staged = s.staged ∧
    (run_release s true ov).2.init_lines = (run_release s false ov).2.init_lines ∧
    (run_release s true ov).2.changelog = (run_release s false ov).2.changelog := by
  by_cases hd : releaseDirty s ≠ []
  · simp [run_release, hd]
  · rcases hsv : semver_bump (read_current_version s.init_lines)
        (releaseBump (analyze_commits s.log) ov) with _ | v
    · simp [run_release, hd, hsv]
    · simp [run_release, hd, hsv, git_commit_and_tag]

/-- C1 (counterexample): on a concrete clean state, the dry run does modify
the version marker file and the changelog (only commit and tag are skipped),
refuting the claim that a dry run leaves them unmodified. -/
theorem dry_run_writes_files :
    (run_release sampleRelease true none).1 = Except.ok (chars "1.3.0") ∧
    (run_release sampleRelease true none).2.init_lines ≠ sampleRelease.init_lines ∧
    (run_release sampleRelease true none).2.changelog ≠ sampleRelease.changelog ∧
    (run_release sampleRelease true none).2.history = sampleRelease.history ∧
    (run_release sampleRelease true none).2.tags = sampleRelease.tags := by
  decide

/-- C4: the release engine aborts with the fatal dirty-tree error, leaving
the state untouched, whenever some status line is nonempty and not an
untracked (`"?? "`) line; when every status line is empty or untracked it
proceeds past the guard (either completing with a version or failing only on
an unparseable current version). -/
theorem release_clean_tree_guard (s : RepoState) (d : Bool) (ov : Option Str) :
    ((∃ ln ∈ s.status_lines, ln ≠ [] ∧ ¬ (chars "?? ").isPrefixOf ln) →
      run_release s d ov = (Except.error cleanTreeErr, s)) ∧
    ((∀ ln ∈ s.status_lines, ln = [] ∨ (chars "?? ").isPrefixOf ln) →
      (run_release s d ov).1 = Except.error valueErr ∨
      ∃ v, (run_release s d ov).1 = Except.ok v) := by
  constructor
  · rintro ⟨ln, hmem, hne, hpre⟩
    have hfil : releaseDirty s ≠ [] := by
      simp only [releaseDirty]
      intro hnil
      have := List.filter_eq_nil_iff.1 hnil ln hmem
      simp [hne, hpre] at this
    simp [run_release, hfil]
  · intro hclean
    have hfil : releaseDirty s = [] := by
      apply List.filter_eq_nil_iff.2
      intro ln hmem
      rcases hclean ln hmem with h | h <;> simp [h]
    rcases hsv : semver_bump (read_current_version s.init_lines)
        (releaseBump (analyze_commits s.log) ov) with _ | v
    · left
      simp [run_release, hfil, hsv]
    · right
      exact ⟨v, by simp [run_release, hfil, hsv]⟩

/-- Witness for `release_clean_tree_guard`: the guard fires on a state with a
staged modification and does not fire on the clean sample state. -/
theorem release_clean_tree_guard_witness :
    run_release sampleDirty false none = (Except.error cleanTreeErr, sampleDirty) ∧
    ((run_release sampleRelease false none).1 = Except.error valueErr ∨
      ∃ v, (run_release sampleRelease false none).1 = Except.ok v) :=
  ⟨(release_clean_tree_guard sampleDirty false none).1
      ⟨chars "M  a", by decide, by decide, by decide⟩,
   (release_clean_tree_guard sampleRelease false none).2 (by decide)⟩

/-- C6: when the diff computed for the path in an orchestrator iteration is
blank after trimming, the iteration's commit phase does nothing: no API
request, no commit command, no processed-mark. -/
theorem blank_diff_skips_commit (env : Env) (smap : List (Str × Char × Char))
    (orig : Option Str) (f : Str)
    (h : pyStrip (computeDiff env smap orig f) = []) :
    commitPhase env smap orig f = ([], []) := by
  simp [commitPhase, h]

/-- Witness for `blank_diff_skips_commit` on an environment whose diff
oracles answer blank. -/
theorem blank_diff_skips_commit_witness :
    pyStrip (computeDiff envBlank [] none (chars "a")) = [] ∧
    commitPhase envBlank [] none (chars "a") = ([], []) :=
  ⟨by decide, blank_diff_skips_commit envBlank [] none (chars "a") (by decide)⟩

/-- The `seen`-set loop of `get_diffed_files` computes first-seen-order
deduplication of the entries not already seen. -/
theorem dedupLoop_eq (fs : List Str) :
    ∀ seen, dedupLoop fs seen = dedupFirstSeen (fs.filter (fun y => decide (y ∉ seen))) := by
  induction fs with
  | nil => intro seen; simp [dedupLoop, dedupFirstSeen]
  | cons f fs ih =>
    intro seen
    by_cases hf : f ∈ seen
    · simp [dedupLoop, hf, ih]
    · have hstep : (f :: fs).filter (fun y => decide (y ∉ seen)) =
          f :: fs.filter (fun y => decide (y ∉ seen)) := by
        simp [List.filter_cons, hf]
      rw [dedupLoop, if_neg hf, hstep, dedupFirstSeen, ih (f :: seen),
        List.filter_filter]
      congr 1
      congr 1
      apply List.filter_congr
      intro y _
      by_cases h1 : y = f <;> by_cases h2 : y ∈ seen <;> simp [h1, h2]

/-- `get_diffed_files` equals the first-seen deduplication of the paths of
the changed entries. -/
theorem get_diffed_files_eq (entries : List ChangeEntry) :
    get_diffed_files_of entries =
      dedupFirstSeen ((entries.filter changedEntry).map (fun e => e.path)) := by
  unfold get_diffed_files_of
  rw [dedupLoop_eq]
  congr 1
  simp

/-- C7: the Status Parser yields `('M', ' ', "foo.txt", none)` on
`"M  foo.txt"` and that path is a changed path; it yields
`original = "old.txt"`, `path = "new.txt"` on the rename line; and the
changed-path list is exactly the paths of the eligible entries, deduplicated
in first-seen order. -/
theorem status_parser_cases :
    status_parse (chars "M  foo.txt") =
      some [⟨'M', ' ', chars "foo.txt", none⟩] ∧
    chars "foo.txt" ∈ get_diffed_files_of [⟨'M', ' ', chars "foo.txt", none⟩] ∧
    status_parse (chars "R  old.txt -> new.txt") =
      some [⟨'R', ' ', chars "new.txt", some (chars "old.txt")⟩] ∧
    ∀ entries : List ChangeEntry,
      get_diffed_files_of entries =
        dedupFirstSeen ((entries.filter changedEntry).map (fun e => e.path)) :=
  ⟨by decide, by decide, by decide, get_diffed_files_eq⟩

/-- On a line of length at least 2 the per-line parse is total and produces
the described entry. -/
theorem parseStatusLine_of_len :
    ∀ l : Str, 2 ≤ l.length → parseStatusLine l = some (entryOfLine l)
  | [], h => absurd h (by simp)
  | [_], h => absurd h (by simp)
  | x :: y :: t, _ => by
    simp only [parseStatusLine, entryOfLine]
    cases hsp : splitFirstOn (chars " -> ")
        (if 3 < (x :: y :: t).length then (x :: y :: t).drop 3 else []) with
    | none => simp [hsp]
    | some op => simp [hsp]

/-- `optionTraverse` succeeds pointwise. -/
theorem optionTraverse_of_forall {α β : Type} (f : α → Option β) (g : α → β) :
    ∀ l : List α, (∀ a ∈ l, f a = some (g a)) → optionTraverse f l = some (l.map g)
  | [], _ => rfl
  | a :: l, h => by
    have ha := h a (List.mem_cons_self a l)
    have hl := optionTraverse_of_forall f g l (fun b hb => h b (List.mem_cons_of_mem a hb))
    simp [optionTraverse, ha, hl]

/-- C10: when every non-blank status line has length at least 2, parsing is
total — one entry per non-blank line, the path taken from the text after
offset 3 (empty on lines of 3 or fewer characters), as `entryOfLine`
records — while a non-blank line of length 1 makes the parse raise (`none`),
so it falls outside the guarantee. -/
theorem status_parser_totality :
    (∀ out : Str,
      (∀ l ∈ (pySplitlines out).filter (fun l => decide (pyStrip l ≠ [])), 2 ≤ l.length) →
      status_parse out =
        some (((pySplitlines out).filter (fun l => decide (pyStrip l ≠ []))).map entryOfLine)) ∧
    status_parse (chars "x") = none := by
  constructor
  · intro out h
    unfold status_parse
    exact optionTraverse_of_forall _ _ _ (fun l hl => parseStatusLine_of_len l (h l hl))
  · decide

/-- Witness for `status_parser_totality` on a concrete two-line status
output. -/
theorem status_parser_totality_witness :
    status_parse (chars "M  a\n?? b") =
      some (((pySplitlines (chars "M  a\n?? b")).filter
        (fun l => decide (pyStrip l ≠ []))).map entryOfLine) :=
  status_parser_totality.1 (chars "M  a\n?? b") (by decide)

/-- C9: the classifier puts each commit in exactly one of the `feat`, `fix`,
`other` buckets (their sizes sum to the number of commits), and the
`breaking` bucket holds exactly the commits whose subject matches the
grammar and that carry the `!` marker or a later body line with the
breaking-change token — a commit with an unmatched subject never reaches the
breaking bucket. -/
theorem analyze_bucket_partition (cs : List CommitRec) :
    (analyze_commits cs).feat.length + (analyze_commits cs).fix.length +
      (analyze_commits cs).other.length = cs.length ∧
    (analyze_commits cs).breaking =
      (cs.filter (fun c => commitBreaking c)).map
        (fun c => ⟨c.sha, commitSubject c⟩) := by
  induction cs with
  | nil => exact ⟨rfl, rfl⟩
  | cons c cs ih =>
    obtain ⟨ih1, ih2⟩ := ih
    cases hm : ccMatch (commitSubject c) with
    | none =>
      have hb : commitBreaking c = false := by simp [commitBreaking, hm]
      constructor
      · simp only [analyze_commits, hm]
        simp only [List.length_cons]
        omega
      · simp only [analyze_commits, hm, List.filter_cons, hb]
        simpa using ih2
    | some tb =>
      obtain ⟨ctype, bang⟩ := tb
      have hfil : (c :: cs).filter (fun c => commitBreaking c) =
          (if commitBreaking c then [c] else []) ++ cs.filter (fun c => commitBreaking c) := by
        by_cases hb : commitBreaking c <;> simp [List.filter_cons, hb]
      have hne : chars "fix" ≠ chars "feat" := by decide
      constructor
      · simp only [analyze_commits, hm]
        by_cases hb : commitBreaking c <;>
          by_cases hft : ctype = chars "feat" <;>
            by_cases hfx : ctype = chars "fix" <;>
              simp [hb, hft, hfx, hne] <;> omega
      · simp only [analyze_commits, hm, hfil]
        by_cases hb : commitBreaking c <;>
          by_cases hft : ctype = chars "feat" <;>
            by_cases hfx : ctype = chars "fix" <;>
              simp [hb, hft, hfx, hne, ih2]

/-- `commitPhase` either does nothing or issues exactly one API request and
one pathspec-restricted commit. -/
theorem commitPhase_cases (env : Env) (smap : List (Str × Char × Char))
    (orig : Option Str) (f : Str) :
    commitPhase env smap orig f = ([], []) ∨
    ∃ diff msg,
      commitPhase env smap orig f =
        ([Ev.api diff,
          Ev.commit msg (match orig with | some o => [o, f] | none => [f])],
         if orig.isSome &&
             env.runOk (Ev.commit msg (match orig with | some o => [o, f] | none => [f]))
         then [f] else []) := by
  by_cases h : pyStrip (computeDiff env smap orig f) = []
  · left
    simp [commitPhase, h]
  · right
    exact ⟨computeDiff env smap orig f,
      generate_commit_message env.api (computeDiff env smap orig f),
      by simp [commitPhase, h]⟩

/-- Every path mentioned by a `commitPhase` event is the processed file or
its rename partner. -/
theorem commitPhase_paths (env : Env) (smap : List (Str × Char × Char))
    (orig : Option Str) (f : Str) :
    ∀ ev ∈ (commitPhase env smap orig f).1, ∀ q ∈ ev.paths, q ∈ f :: optList orig := by
  rcases commitPhase_cases env smap orig f with h | ⟨diff, msg, h⟩ <;> rw [h]
  · intro ev hev
    simp at hev
  · intro ev hev q hq
    simp only [List.mem_cons, List.not_mem_nil, or_false] at hev
    rcases hev with rfl | rfl
    · simp [Ev.paths] at hq
    · cases orig with
      | some o =>
        simp only [Ev.paths, List.mem_cons, List.not_mem_nil, or_false] at hq
        simp [optList]
        tauto
      | none =>
        simp only [Ev.paths, List.mem_cons, List.not_mem_nil, or_false] at hq
        simp [optList, hq]

/-- A commit issued by `commitPhase` carries exactly the rename-aware
pathspec of the processed file. -/
theorem commitPhase_commit_shape (env : Env) (smap : List (Str × Char × Char))
    (orig : Option Str) (f : Str) (msg : Str) (ps : List Str)
    (h : Ev.commit msg ps ∈ (commitPhase env smap orig f).1) :
    (orig = none ∧ ps = [f]) ∨ (∃ o, orig = some o ∧ ps = [o, f]) := by
  cases orig with
  | some o =>
    right
    refine ⟨o, rfl, ?_⟩
    rcases commitPhase_cases env smap (some o) f with hc | ⟨diff, msg2, hc⟩ <;> rw [hc] at h
    · simp at h
    · simp only [List.mem_cons, List.not_mem_nil, or_false] at h
      rcases h with h | h
      · exact absurd h (by simp)
      · simp only [Ev.commit.injEq] at h
        exact h.2
  | none =>
    left
    refine ⟨rfl, ?_⟩
    rcases commitPhase_cases env smap none f with hc | ⟨diff, msg2, hc⟩ <;> rw [hc] at h
    · simp at h
    · simp only [List.mem_cons, List.not_mem_nil, or_false] at h
      rcases h with h | h
      · exact absurd h (by simp)
      · simp only [Ev.commit.injEq] at h
        exact h.2

/-- One `processOne` step splits into staging events (never commits, paths
restricted to the file and its rename partner) followed by an optional
commit phase. -/
theorem processOne_split (env : Env) (p : List Str)
    (m : List (Str × Char × Char)) (f : Str) :
    ∃ pre post smap1,
      (processOne env p m f).1 = pre ++ post ∧
      (∀ ev ∈ pre, (∀ q ∈ ev.paths, q ∈ f :: origList env f) ∧
        ∀ msg ps, ev ≠ Ev.commit msg ps) ∧
      (post = [] ∨ post = (commitPhase env smap1 (detailsFor env f).2.2 f).1) := by
  unfold processOne
  by_cases hp : f ∈ p
  · exact ⟨[], [], m, by simp [hp], by simp, Or.inl rfl⟩
  · simp only [if_neg hp]
    rcases hdet : detailsFor env f with ⟨X, Y, og⟩
    have horig : origList env f = optList og := by
      simp [origList, hdet]
    by_cases hX : X = ' '
    · cases og with
      | some o =>
        by_cases hrun : env.runOk (Ev.addAll [o, f])
        · refine ⟨[Ev.addAll [o, f]], (commitPhase env (m ++ [(f, ('R', ' '))]) (some o) f).1,
            m ++ [(f, ('R', ' '))], by simp [hX, hrun], ?_, Or.inr rfl⟩
          intro ev hev
          simp only [List.mem_singleton] at hev
          subst hev
          refine ⟨?_, by simp⟩
          intro q hq
          simp only [Ev.paths, List.mem_cons, List.not_mem_nil, or_false] at hq
          simp [horig, optList]
          tauto
        · refine ⟨[Ev.addAll [o, f]], [], m, by simp [hX, hrun], ?_, Or.inl rfl⟩
          intro ev hev
          simp only [List.mem_singleton] at hev
          subst hev
          refine ⟨?_, by simp⟩
          intro q hq
          simp only [Ev.paths, List.mem_cons, List.not_mem_nil, or_false] at hq
          simp [horig, optList]
          tauto
      | none =>
        by_cases hY : Y = 'D'
        · by_cases hrun : env.runOk (Ev.rmq f)
          · refine ⟨[Ev.rmq f], (commitPhase env (m ++ [(f, ('M', ' '))]) none f).1,
              m ++ [(f, ('M', ' '))], by simp [hX, hY, hrun], ?_, Or.inr rfl⟩
            intro ev hev
            simp only [List.mem_singleton] at hev
            subst hev
            exact ⟨by intro q hq; simp only [Ev.paths, List.mem_singleton] at hq; simp [hq],
              by simp⟩
          · refine ⟨[Ev.rmq f], [], m, by simp [hX, hY, hrun], ?_, Or.inl rfl⟩
            intro ev hev
            simp only [List.mem_singleton] at hev
            subst hev
            exact ⟨by intro q hq; simp only [Ev.paths, List.mem_singleton] at hq; simp [hq],
              by simp⟩
        · by_cases hrun : env.runOk (Ev.addF f)
          · refine ⟨[Ev.addF f], (commitPhase env (m ++ [(f, ('M', ' '))]) none f).1,
              m ++ [(f, ('M', ' '))], by simp [hX, hY, hrun], ?_, Or.inr rfl⟩
            intro ev hev
            simp only [List.mem_singleton] at hev
            subst hev
            exact ⟨by intro q hq; simp only [Ev.paths, List.mem_singleton] at hq; simp [hq],
              by simp⟩
          · refine ⟨[Ev.addF f], [], m, by simp [hX, hY, hrun], ?_, Or.inl rfl⟩
            intro ev hev
            simp only [List.mem_singleton] at hev
            subst hev
            exact ⟨by intro q hq; simp only [Ev.paths, List.mem_singleton] at hq; simp [hq],
              by simp⟩
    · refine ⟨[], (commitPhase env m og f).1, m, by simp [hX], by simp,
        Or.inr rfl⟩

/-- Every path mentioned by any event of a `processOne` step is the processed
file or its recorded rename partner. -/
theorem processOne_paths (env : Env) (p : List Str)
    (m : List (Str × Char × Char)) (f : Str) :
    ∀ ev ∈ (processOne env p m f).1, ∀ q ∈ ev.paths, q ∈ f :: origList env f := by
  obtain ⟨pre, post, smap1, heq, hpre, hpost⟩ := processOne_split env p m f
  intro ev hev
  rw [heq] at hev
  rcases List.mem_append.1 hev with h | h
  · exact (hpre ev h).1
  · rcases hpost with rfl | rfl
    · simp at h
    · intro q hq
      have := commitPhase_paths env smap1 (detailsFor env f).2.2 f ev h q hq
      simpa [origList] using this

/-- A commit issued during a `processOne` step is pathspec-restricted to the
processed file, or to the recorded rename pair. -/
theorem processOne_commit_shape (env : Env) (p : List Str)
    (m : List (Str × Char × Char)) (f : Str) (msg : Str) (ps : List Str)
    (h : Ev.commit msg ps ∈ (processOne env p m f).1) :
    ps = [f] ∨ ∃ o, (detailsFor env f).2.2 = some o ∧ ps = [o, f] := by
  obtain ⟨pre, post, smap1, heq, hpre, hpost⟩ := processOne_split env p m f
  rw [heq] at h
  rcases List.mem_append.1 h with h | h
  · exact absurd rfl ((hpre _ h).2 msg ps)
  · rcases hpost with rfl | rfl
    · simp at h
    · rcases commitPhase_commit_shape env smap1 (detailsFor env f).2.2 f msg ps h with
        ⟨_, hps⟩ | ⟨o, ho, hps⟩
      · exact Or.inl hps
      · exact Or.inr ⟨o, ho, hps⟩

/-- Lift of `processOne_paths` to the whole loop. -/
theorem ccLoop_paths (env : Env) (files : List Str) :
    ∀ p m, ∀ ev ∈ ccLoop env files p m,
      ∃ f ∈ files, ∀ q ∈ ev.paths, q ∈ f :: origList env f := by
  induction files with
  | nil => intro p m ev hev; simp [ccLoop] at hev
  | cons f fs ih =>
    intro p m ev hev
    simp only [ccLoop] at hev
    rcases List.mem_append.1 hev with h | h
    · exact ⟨f, List.mem_cons_self f fs, processOne_paths env p m f ev h⟩
    · obtain ⟨g, hg, hsub⟩ := ih _ _ ev h
      exact ⟨g, List.mem_cons_of_mem f hg, hsub⟩

/-- Lift of `processOne_commit_shape` to the whole loop. -/
theorem ccLoop_commits (env : Env) (files : List Str) :
    ∀ p m msg ps, Ev.commit msg ps ∈ ccLoop env files p m →
      ∃ f ∈ files, ps = [f] ∨ ∃ o, (detailsFor env f).2.2 = some o ∧ ps = [o, f] := by
  induction files with
  | nil => intro p m msg ps h; simp [ccLoop] at h
  | cons f fs ih =>
    intro p m msg ps h
    simp only [ccLoop] at h
    rcases List.mem_append.1 h with h | h
    · exact ⟨f, List.mem_cons_self f fs, processOne_commit_shape env p m f msg ps h⟩
    · obtain ⟨g, hg, hsh⟩ := ih _ _ msg ps h
      exact ⟨g, List.mem_cons_of_mem f hg, hsh⟩

/-- A command whose pathspec avoids `q` leaves `q`'s staged status as it
was. -/
theorem applyEv_frame (staged : List Str) (q : Str) (ev : Ev)
    (h : q ∉ ev.paths) : (q ∈ applyEv staged ev ↔ q ∈ staged) := by
  cases ev with
  | addAll ps =>
    simp only [Ev.paths] at h
    simp [applyEv, List.mem_append, h]
  | rmq p =>
    simp only [Ev.paths, List.mem_singleton] at h
    simp [applyEv, List.mem_append, h]
  | addF p =>
    simp only [Ev.paths, List.mem_singleton] at h
    simp [applyEv, List.mem_append, h]
  | api d => simp [applyEv]
  | commit msg ps =>
    simp only [Ev.paths] at h
    simp [applyEv, List.mem_filter, h]

/-- A trace whose pathspecs avoid `q` leaves `q`'s staged status as it
was. -/
theorem applyTrace_frame (q : Str) :
    ∀ evs : List Ev, (∀ ev ∈ evs, q ∉ ev.paths) →
      ∀ staged, (q ∈ applyTrace staged evs ↔ q ∈ staged)
  | [], _, staged => by simp [applyTrace]
  | ev :: evs, h, staged => by
    have h1 : q ∉ ev.paths := h ev (List.mem_cons_self ev evs)
    have ih := applyTrace_frame q evs
      (fun e he => h e (List.mem_cons_of_mem ev he)) (applyEv staged ev)
    calc q ∈ applyTrace staged (ev :: evs)
        ↔ q ∈ applyTrace (applyEv staged ev) evs := by simp [applyTrace]
      _ ↔ q ∈ applyEv staged ev := ih
      _ ↔ q ∈ staged := applyEv_frame staged q ev h1

/-- C5: every commit the orchestrator issues is restricted to the pathspec of
the file being handled (or the old+new pair of its recorded rename), and a
staged path unrelated to the processed files and their rename partners is
mentioned by no command and remains staged across the whole run. -/
theorem commit_pathspec_restriction (env : Env) (files : List Str) :
    (∀ msg ps, Ev.commit msg ps ∈ commit_changes env files →
      ∃ f ∈ files, ps = [f] ∨ ∃ o, (detailsFor env f).2.2 = some o ∧ ps = [o, f]) ∧
    (∀ q, q ∉ touched env files →
      (∀ ev ∈ commit_changes env files, q ∉ ev.paths) ∧
      ∀ staged, (q ∈ applyTrace staged (commit_changes env files) ↔ q ∈ staged)) := by
  constructor
  · intro msg ps h
    exact ccLoop_commits env files _ _ msg ps h
  · intro q hq
    have hnot : ∀ ev ∈ commit_changes env files, q ∉ ev.paths := by
      intro ev hev hqev
      obtain ⟨f, hf, hsub⟩ := ccLoop_paths env files _ _ ev hev
      exact hq (List.mem_flatten.2
        ⟨f :: origList env f, List.mem_map_of_mem _ hf, hsub q hqev⟩)
    exact ⟨hnot, fun staged => applyTrace_frame q _ hnot staged⟩

/-- Witness for `commit_pathspec_restriction`: in the sample environment the
unrelated staged path `keep` is untouched and stays staged, and the single
commit issued for `a` has pathspec `[a]`. -/
theorem commit_pathspec_restriction_witness :
    chars "keep" ∉ touched sampleEnv [chars "a"] ∧
    (∀ ev ∈ commit_changes sampleEnv [chars "a"], chars "keep" ∉ ev.paths) ∧
    (chars "keep" ∈ applyTrace [chars "keep"] (commit_changes sampleEnv [chars "a"]) ↔
      chars "keep" ∈ [chars "keep"]) ∧
    (∃ f ∈ [chars "a"], [chars "a"] = [f] ∨
      ∃ o, (detailsFor sampleEnv f).2.2 = some o ∧ [chars "a"] = [o, f]) :=
  ⟨by decide,
   ((commit_pathspec_restriction sampleEnv [chars "a"]).2 (chars "keep") (by decide)).1,
   ((commit_pathspec_restriction sampleEnv [chars "a"]).2 (chars "keep") (by decide)).2
     [chars "keep"],
   (commit_pathspec_restriction sampleEnv [chars "a"]).1 (chars "feat: x") [chars "a"]
     (by decide)⟩

/-- `str.split` always returns at least one piece. -/
theorem splitOnChar_ne_nil (c : Char) : ∀ s : Str, splitOnChar c s ≠ []
  | [] => by simp [splitOnChar]
  | x :: xs => by
    simp only [splitOnChar]
    split <;> simp

/-- No piece of `str.split(c)` contains the separator. -/
theorem splitOnChar_not_mem (c : Char) : ∀ s : Str, ∀ p ∈ splitOnChar c s, c ∉ p := by
  intro s
  induction s with
  | nil =>
    intro p hp
    simp only [splitOnChar, List.mem_singleton] at hp
    subst hp
    simp
  | cons x xs ih =>
    intro p hp
    simp only [splitOnChar] at hp
    by_cases hx : x = c
    · rw [if_pos hx] at hp
      rcases List.mem_cons.1 hp with rfl | hp
      · simp
      · exact ih p hp
    · rw [if_neg hx] at hp
      rcases List.mem_cons.1 hp with rfl | hp
      · intro hcmem
        rcases List.mem_cons.1 hcmem with rfl | hcmem
        · exact hx rfl
        · have hne := splitOnChar_ne_nil c xs
          have hmem : (splitOnChar c xs).headD [] ∈ splitOnChar c xs := by
            cases hsp : splitOnChar c xs with
            | nil => exact absurd hsp hne
            | cons a l => simp
          exact ih _ hmem hcmem
      · exact ih p ((List.tail_sublist _).subset hp)

/-- Stripping characters from both ends only removes characters. -/
theorem mem_pyStripWith (p : Char → Bool) (s : Str) (a : Char)
    (h : a ∈ pyStripWith p s) : a ∈ s := by
  unfold pyStripWith at h
  rw [List.mem_reverse] at h
  have h2 := (List.dropWhile_sublist _).subset h
  rw [List.mem_reverse] at h2
  exact (List.dropWhile_sublist _).subset h2

/-- Stripping a bullet marker only removes characters. -/
theorem mem_stripBullet (l : Str) (a : Char) (h : a ∈ stripBullet l) : a ∈ l := by
  cases l with
  | nil => simp [stripBullet] at h
  | cons c rest =>
    simp only [stripBullet] at h
    split at h
    · exact List.mem_cons_of_mem c ((List.dropWhile_sublist _).subset h)
    · exact h

/-- A line matching the header grammar is nonempty (the type keyword alone
needs four characters). -/
theorem headerMatch_ne_nil (s : Str) (h : headerMatch s = true) : s ≠ [] := by
  intro hnil
  subst hnil
  exact absurd h (by decide)

/-- A line whose first token contains a colon is nonempty. -/
theorem colonBeforeSpace_ne_nil (s : Str) (h : colonBeforeSpace s = true) : s ≠ [] := by
  intro hnil
  subst hnil
  exact absurd h (by decide)

/-- Prefixing `"chore: "` puts a colon in the first space-delimited token,
whatever the suffix. -/
theorem colonBeforeSpace_chore (fb : Str) :
    colonBeforeSpace (chars "chore: " ++ fb) = true := rfl

/-- The default head of a nonempty list is a member. -/
theorem headD_mem_of_ne_nil {α : Type} (l : List α) (d : α) (h : l ≠ []) :
    l.headD d ∈ l := by
  cases l with
  | nil => exact absurd rfl h
  | cons a t => simp

/-- C2 (amended): the sanitizer is pure and total by construction, and for
every input it returns a nonempty single-line string that matches the header
grammar, or is exactly `"chore: update"`, or is the first non-blank line kept
as-is because its first space-delimited token contains a colon. -/
theorem sanitize_output_shape (raw : Str) :
    sanitize_commit_message raw ≠ [] ∧
    '\n' ∉ sanitize_commit_message raw ∧
    (headerMatch (sanitize_commit_message raw) = true ∨
     sanitize_commit_message raw = chars "chore: update" ∨
     colonBeforeSpace (sanitize_commit_message raw) = true) := by
  have hlines : ∀ l ∈ sanitizedLines raw, '\n' ∉ l := by
    intro l hl
    simp only [sanitizedLines, List.mem_filter, List.mem_map] at hl
    obtain ⟨⟨l', hl', rfl⟩, _⟩ := hl
    intro hm
    exact splitOnChar_not_mem '\n' _ l' hl' (mem_pyStripWith _ _ _ hm)
  unfold sanitize_commit_message
  by_cases hraw : raw = []
  · rw [if_pos hraw]
    exact ⟨by decide, by decide, Or.inr (Or.inl rfl)⟩
  · rw [if_neg hraw]
    split
    · exact ⟨by decide, by decide, Or.inr (Or.inl rfl)⟩
    · rename_i l0 rest hL
      split
      · rename_i l hF
        have hmem : l ∈ l0 :: rest := List.mem_of_find?_eq_some hF
        have hmatch0 := List.find?_some hF
        have hmatch : headerMatch (stripBullet l) = true := hmatch0
        have hnl : '\n' ∉ stripBullet l := by
          intro hm
          exact hlines l (hL ▸ hmem) (mem_stripBullet _ _ hm)
        exact ⟨headerMatch_ne_nil _ hmatch, hnl, Or.inl hmatch⟩
      · have hnlfb : '\n' ∉ pyStrip ((splitOnChar '\n' (stripBullet l0)).headD []) := by
          intro hm
          have h1 := mem_pyStripWith _ _ _ hm
          have h2 : (splitOnChar '\n' (stripBullet l0)).headD [] ∈
              splitOnChar '\n' (stripBullet l0) :=
            headD_mem_of_ne_nil _ _ (splitOnChar_ne_nil _ _)
          exact splitOnChar_not_mem '\n' _ _ h2 h1
        by_cases hh : headerMatch (pyStrip ((splitOnChar '\n' (stripBullet l0)).headD [])) = true
        · rw [if_pos hh]
          exact ⟨headerMatch_ne_nil _ hh, hnlfb, Or.inl hh⟩
        · rw [if_neg hh]
          by_cases hc : colonBeforeSpace (pyStrip ((splitOnChar '\n' (stripBullet l0)).headD [])) = true
          · rw [if_pos hc]
            exact ⟨colonBeforeSpace_ne_nil _ hc, hnlfb, Or.inr (Or.inr hc)⟩
          · rw [if_neg hc]
            refine ⟨?_, ?_, Or.inr (Or.inr (colonBeforeSpace_chore _))⟩
            · intro hbad
              have := congrArg List.length hbad
              simp [chars] at this
            · intro hm
              rcases List.mem_append.1 hm with h | h
              · exact absurd h (by decide)
              · exact hnlfb h

/-- C2 (counterexample): on the input `"foo: bar"` the sanitizer returns
`"foo: bar"`, which neither matches the Conventional Commit header grammar
nor is the literal fallback — refuting the claim as stated. -/
theorem sanitize_claim_counterexample :
    sanitize_commit_message (chars "foo: bar") = chars "foo: bar" ∧
    headerMatch (chars "foo: bar") = false ∧
    chars "foo: bar" ≠ chars "chore: update" := by
  decide
